import Mathlib

/-!
# SREF library: verification of the search/ranking frontend and of the
  spec-level search engine model

The repository ships a browser frontend (src/static/js/app.js) that talks to
a small search backend. The frontend code (pagination, tag extraction, tag
loading, tag shuffling, the search entry point) is embedded here directly
from src/static/js/app.js. The backend engine (cosine-similarity ranking,
find-similar with exclusion) is not part of the shipped sources; those
definitions are modelled from the specification and are marked as such in
their doc comments.

JavaScript strings are modelled as Lean String / List Char (the observed
data is ASCII); JavaScript numbers used here are array indices and counts,
modelled as Nat, and similarity scores, modelled as real numbers.
-/

namespace SrefLib

/-! ## Definitions: pagination (src/static/js/app.js, class SREFSearch)

The constructor sets resultsPerPage = 9 and currentPage = 1.
displayCurrentPage takes allResults.slice(startIndex, endIndex) with
startIndex = (currentPage - 1) * resultsPerPage and
endIndex = startIndex + resultsPerPage.
updatePagination and nextPage compute
totalPages = Math.ceil(allResults.length / resultsPerPage). -/

/-- Embeds this.resultsPerPage = 9 from the SREFSearch constructor. -/
def resultsPerPage : Nat := 9

/-- Embeds Math.ceil(this.allResults.length / this.resultsPerPage), the
totalPages computation of updatePagination and nextPage, as exact natural
ceiling division. -/
def totalPages (allResults : List α) : Nat :=
  (allResults.length + resultsPerPage - 1) / resultsPerPage

/-- Embeds displayCurrentPage: currentResults =
allResults.slice(startIndex, endIndex), where slice(s, e) returns the
elements at positions s .. e-1. -/
def pageSlice (allResults : List α) (currentPage : Nat) : List α :=
  let startIndex := (currentPage - 1) * resultsPerPage
  let endIndex := startIndex + resultsPerPage
  (allResults.drop startIndex).take (endIndex - startIndex)

/-- The pagination-relevant mutable fields of the SREFSearch instance:
this.currentPage and this.allResults. -/
structure PagerState (α : Type) where
  currentPage : Nat
  allResults : List α

/-- The SREFSearch constructor: currentPage = 1, allResults = []. -/
def initState : PagerState α := { currentPage := 1, allResults := [] }

/-- The successful-response tail of performSearch and findSimilarSREFs:
this.allResults = data.results; this.currentPage = 1. -/
def searchSuccess (results : List α) (_s : PagerState α) : PagerState α :=
  { currentPage := 1, allResults := results }

/-- Embeds SREFSearch.previousPage: decrement only when currentPage > 1. -/
def previousPage (s : PagerState α) : PagerState α :=
  if 1 < s.currentPage then ⟨s.currentPage - 1, s.allResults⟩ else s

/-- Embeds SREFSearch.nextPage: increment only when currentPage < totalPages. -/
def nextPage (s : PagerState α) : PagerState α :=
  if s.currentPage < totalPages s.allResults then
    ⟨s.currentPage + 1, s.allResults⟩
  else s

/-- Embeds the hiding branch of updatePagination: the pagination controls
get the "hidden" class exactly when totalPages <= 1. -/
def paginationHidden (s : PagerState α) : Bool :=
  totalPages s.allResults ≤ 1

/-- The pager states reachable through the event handlers of app.js:
construction, a completed search (text search or find-similar, both of which
assign allResults and reset currentPage to 1), and the two pagination
buttons. -/
inductive Reachable : PagerState α → Prop
  | init : Reachable initState
  | search (results : List α) {s : PagerState α} :
      Reachable s → Reachable (searchSuccess results s)
  | prev {s : PagerState α} : Reachable s → Reachable (previousPage s)
  | next {s : PagerState α} : Reachable s → Reachable (nextPage s)

/-! ## Definitions: the search entry point (SREFSearch.performSearch)

performSearch(query = null) computes
searchQuery = query || this.searchInput.value.trim(); when searchQuery is
falsy (empty) it shows "Please enter a search term" and returns without
issuing the fetch; otherwise it POSTs /search. A JavaScript string is falsy
exactly when it is empty, so an explicit non-empty query argument is used
verbatim and an absent or empty argument falls back to the trimmed input
field. -/

/-- What performSearch does before/instead of touching the network. -/
inductive SearchAction where
  | showErrorOnly (msg : String)
  | request (query : String)
deriving DecidableEq

/-- Embeds searchQuery = query || this.searchInput.value.trim() (an explicit
argument is falsy in JavaScript exactly when it is the empty string). -/
def performSearchQuery (query : Option String) (inputValue : String) : String :=
  match query with
  | some q => if q = "" then inputValue.trim else q
  | none => inputValue.trim

/-- Embeds the guard of performSearch: an empty searchQuery shows the error
message and returns; otherwise the fetch("/search") request is issued. -/
def performSearchAction (query : Option String) (inputValue : String) :
    SearchAction :=
  let searchQuery := performSearchQuery query inputValue
  if searchQuery = "" then .showErrorOnly "Please enter a search term"
  else .request searchQuery

/-- Embeds the effect of one performSearch call on the pager state: the
rejected branch returns before the fetch and mutates nothing; a request that
fails (network error or non-ok response) is caught and mutates nothing; a
successful response assigns allResults and resets currentPage to 1. -/
def performSearchState (query : Option String) (inputValue : String)
    (s : PagerState α) (response : Option (List α)) : PagerState α :=
  match performSearchAction query inputValue with
  | .showErrorOnly _ => s
  | .request _ =>
    match response with
    | some results => searchSuccess results s
    | none => s

/-! ## Definitions: tag loading (SREFSearch.loadTags)

loadTags fetches /tags inside a try/catch. Any throw inside the try block
(network failure, malformed JSON body, a non-ok status, or a response whose
tags field is absent, which makes this.displayTags() throw on
undefined.slice) lands in the catch, which installs the hardcoded fallback
list and renders it; no error escapes. An ok response with a tags field
assigns it verbatim. -/

/-- Outcomes of the fetch("/tags") round trip, as seen inside loadTags.
fetchFailed covers a rejected fetch and a body that is not valid JSON. -/
inductive TagsFetch where
  | fetchFailed
  | response (ok : Bool) (tags : Option (List String)) (error : Option String)
deriving DecidableEq

/-- The hardcoded fallback tag list of loadTags. -/
def fallbackTags : List String :=
  ["abstract", "art", "photorealistic", "portrait", "minimalist",
   "design", "nature", "landscape", "geometric", "patterns",
   "colorful", "painting", "dark", "moody", "atmosphere"]

/-- Embeds loadTags as a function from the fetch outcome to the final value
of this.availableTags. -/
def loadTags : TagsFetch → List String
  | .fetchFailed => fallbackTags
  | .response ok tags _ =>
    if ok then
      match tags with
      | some ts => ts
      | none => fallbackTags
    else fallbackTags

/-! ## Definitions: tag extraction (SREFSearch.extractTags)

extractTags(summary) runs summary.match(/Key themes: (.+)/). The regex
scans left to right for an occurrence of "Key themes: " followed by at
least one character on the same line ("." matches everything except the
line terminators \n, \r, U+2028, U+2029, and "+" is greedy to the end of
the line). On a match, the captured text is split(","), each piece is
trimmed and cut at its first space character (split(" ")[0]), pieces of
length ≤ 2 are dropped and the first 5 survivors are kept; with no match
the fixed list ["visual", "style"] is returned. JavaScript string
operations are modelled on List Char; the whitespace classes use their
ASCII members, which covers the corpus. -/

/-- The characters the regex metacharacter "." does not match. -/
def isLineTerminator (c : Char) : Bool :=
  c = Char.ofNat 10 || c = Char.ofNat 13 ||
  c = Char.ofNat 0x2028 || c = Char.ofNat 0x2029

/-- The rest of the current line: what a greedy ".+" can consume. -/
def lineRest (cs : List Char) : List Char :=
  cs.takeWhile (fun c => !(isLineTerminator c))

/-- ASCII members of the whitespace class removed by String.prototype.trim. -/
def isJsWhitespace (c : Char) : Bool :=
  c = ' ' || c = Char.ofNat 9 || c = Char.ofNat 10 ||
  c = Char.ofNat 11 || c = Char.ofNat 12 || c = Char.ofNat 13

/-- String.prototype.trim: drop leading and trailing whitespace. -/
def trimChars (cs : List Char) : List Char :=
  ((cs.dropWhile isJsWhitespace).reverse.dropWhile isJsWhitespace).reverse

/-- Whether the pattern is an initial segment of the text (the anchor test
the regex engine performs at one scan position). -/
def beginsWith : List Char → List Char → Bool
  | [], _ => true
  | _ :: _, [] => false
  | p :: ps, c :: cs => p = c && beginsWith ps cs

/-- The literal part of the regex /Key themes: (.+)/. -/
def keyThemesLabel : List Char := "Key themes: ".toList

/-- The capture of summary.match(/Key themes: (.+)/): scan left to right;
at the first position where the literal label is followed by a non-empty
line rest, capture that line rest; otherwise report no match. -/
def findCapture : List Char → Option (List Char)
  | [] => none
  | c :: rest =>
    if beginsWith keyThemesLabel (c :: rest) then
      let cap := lineRest ((c :: rest).drop keyThemesLabel.length)
      if cap.isEmpty then findCapture rest else some cap
    else findCapture rest

/-- String.prototype.split(sep) for a one-character separator: every
occurrence splits, empty pieces are kept, and the empty string yields one
empty piece. -/
def splitOnChar (sep : Char) : List Char → List (List Char)
  | [] => [[]]
  | c :: rest =>
    if c = sep then [] :: splitOnChar sep rest
    else
      match splitOnChar sep rest with
      | [] => [[c]]
      | s :: ss => (c :: s) :: ss

/-- split(" ")[0]: the piece of the string before its first space. -/
def firstWord (cs : List Char) : List Char :=
  (splitOnChar ' ' cs).headD []

/-- Embeds SREFSearch.extractTags on character lists. -/
def extractTagsCore (summary : List Char) : List (List Char) :=
  match findCapture summary with
  | some cap =>
    ((((splitOnChar ',' cap).map (fun t => firstWord (trimChars t))).filter
      (fun t => 2 < t.length)).take 5)
  | none => ["visual".toList, "style".toList]

/-- Embeds SREFSearch.extractTags: the clickable tags derived from a result
card's summary text. -/
def extractTags (summary : String) : List String :=
  (extractTagsCore summary.toList).map String.mk

/-- Modelled from the spec: the documented presentation-boundary contract
"a pure string-split on the delimiter format Key themes: term1, term2, ...",
i.e. the captured text split at commas and nothing else. The Search Service
producing summaries is not part of the shipped sources; this definition
follows section 9 of the specification word for word, for comparison with
extractTags. -/
def keyThemesPlainSplit (summary : String) : Option (List String) :=
  (findCapture summary.toList).map
    (fun cap => (splitOnChar ',' cap).map String.mk)

/-! ## Definitions: tag shuffling (SREFSearch.shuffleExamples)

shuffleExamples returns early when availableTags is empty; otherwise it
copies the array, runs a Fisher-Yates loop (for i from length-1 down to 1,
draw j = Math.floor(Math.random() * (i + 1)) and swap positions i and j by
destructuring assignment) and displays the first 6 entries of the shuffled
copy. The random draws are modelled by an arbitrary draw function; the
value used at step i is reduced mod (i + 1), reflecting the bound of the
JavaScript draw. -/

/-- The destructuring swap [a[i], a[j]] = [a[j], a[i]]: both old values are
read first, then written. Out-of-range positions leave the list unchanged
(the loop below never produces them). -/
def listSwap (l : List α) (i j : Nat) : List α :=
  match l[i]?, l[j]? with
  | some a, some b => (l.set i b).set j a
  | _, _ => l

/-- The Fisher-Yates loop of shuffleExamples, counting i down to 1. -/
def fisherYatesAux (rand : Nat → Nat) (l : List α) : Nat → List α
  | 0 => l
  | i + 1 =>
    fisherYatesAux rand (listSwap l (i + 1) (rand (i + 1) % (i + 2))) i

/-- shuffled = [...this.availableTags] followed by the loop from
length - 1 down to 1. -/
def shuffleCopy (rand : Nat → Nat) (l : List α) : List α :=
  fisherYatesAux rand l (l.length - 1)

/-- Embeds SREFSearch.shuffleExamples as a function from the current
availableTags and displayedTags to the new displayedTags: an empty
availableTags list returns early, otherwise displayedTags =
shuffled.slice(0, 6). -/
def shuffleExamples (availableTags displayedTags : List String)
    (rand : Nat → Nat) : List String :=
  if availableTags.length = 0 then displayedTags
  else (shuffleCopy rand availableTags).take 6

/-- The code's realisation of the Tag Catalog sample(n): the first n
entries of the shuffled copy; shuffleExamples is the n = 6 instance. -/
def sampleTags (tags : List String) (rand : Nat → Nat) (n : Nat) :
    List String :=
  (shuffleCopy rand tags).take n

/-! ## Definitions: the search engine (modelled from the spec)

The ranking backend (Embedding Store entries, the Similarity Ranker of
spec section 4.2 and the search_by_code entry point of section 4.3) is not
among the shipped sources — only its frontend callers are. The definitions
below are modelled from the specification: cosine similarity with the
documented zero-magnitude policy, and rank as a stable descending sort over
the scored store with optional exclusion applied before any pagination. -/

/-- Modelled from the spec (section 3): one StyleEntry of the Embedding
Store. -/
structure StyleEntry where
  code : String
  embedding : List ℝ
  summary : String
  thumbnails : List String

/-- The dot product of two embedding vectors (missing coordinates beyond
the common length contribute nothing). -/
def dotProduct (u v : List ℝ) : ℝ :=
  (List.zipWith (fun a b => a * b) u v).sum

/-- The Euclidean magnitude of an embedding vector. -/
noncomputable def magnitude (v : List ℝ) : ℝ :=
  Real.sqrt ((v.map (fun x => x * x)).sum)

/-- Modelled from the spec (section 4.2): cosine similarity, with the
explicit edge-case policy that a pair involving a zero-magnitude vector
scores zero rather than raising a division error. Total by construction. -/
noncomputable def cosineSim (u v : List ℝ) : ℝ :=
  haveI := Classical.propDecidable (magnitude u = 0 ∨ magnitude v = 0)
  if magnitude u = 0 ∨ magnitude v = 0 then 0
  else dotProduct u v / (magnitude u * magnitude v)

/-- One scored entry of a ranking: the entry's position in the original
store order, its code, and its similarity score. -/
structure ScoredEntry where
  idx : Nat
  code : String
  score : ℝ

/-- The ranking order of the spec: strictly higher scores first, and equal
scores in original store order — a total order on scored entries that makes
sortedness capture both "descending by score" and the stable tie-break. -/
def rankRel (a b : ScoredEntry) : Prop :=
  b.score < a.score ∨ (a.score = b.score ∧ a.idx ≤ b.idx)

noncomputable instance : DecidableRel rankRel :=
  fun _ _ => Classical.propDecidable _

instance : IsTotal ScoredEntry rankRel :=
  ⟨fun a b => by
    rcases lt_trichotomy a.score b.score with h | h | h
    · exact Or.inr (Or.inl h)
    · rcases Nat.le_total a.idx b.idx with hi | hi
      · exact Or.inl (Or.inr ⟨h, hi⟩)
      · exact Or.inr (Or.inr ⟨h.symm, hi⟩)
    · exact Or.inl (Or.inl h)⟩

instance : IsTrans ScoredEntry rankRel :=
  ⟨fun a b c hab hbc => by
    rcases hab with h | ⟨he, hi⟩ <;> rcases hbc with h' | ⟨he', hi'⟩
    · exact Or.inl (h'.trans h)
    · exact Or.inl (he' ▸ h)
    · exact Or.inl (lt_of_lt_of_eq h' he.symm)
    · exact Or.inr ⟨he.trans he', hi.trans hi'⟩⟩

/-- Modelled from the spec (section 4.2): rank(query_vector, store,
exclude) — tag every store entry with its position, drop the excluded
code's entries if exclude is given (before any pagination or truncation),
score each remaining entry against the query by cosine similarity, and
sort by the stable descending order rankRel. -/
noncomputable def rankScored (q : List ℝ) (store : List StyleEntry)
    (exclude : Option String) : List ScoredEntry :=
  let indexed := store.enum
  let kept :=
    match exclude with
    | none => indexed
    | some c => indexed.filter (fun p => p.2.code ≠ c)
  List.insertionSort rankRel
    (kept.map (fun p => ⟨p.1, p.2.code, cosineSim q p.2.embedding⟩))

/-- The caller-visible ordered sequence of (code, score) pairs. -/
noncomputable def rank (q : List ℝ) (store : List StyleEntry)
    (exclude : Option String) : List (String × ℝ) :=
  (rankScored q store exclude).map (fun e => (e.code, e.score))

/-- Modelled from the spec (section 4.3): search_by_code(reference_code)
fails with NotFoundError (here: none) when the code is absent, and
otherwise ranks the whole store against the reference entry's own stored
embedding with exclude = reference_code. -/
noncomputable def searchByCode (x : String) (store : List StyleEntry) :
    Option (List (String × ℝ)) :=
  match store.find? (fun e => e.code = x) with
  | none => none
  | some e => some (rank e.embedding store (some x))

/-- A tiny concrete store used by the witnesses. -/
noncomputable def demoStore : List StyleEntry :=
  [⟨"A", [1, 0], "", []⟩, ⟨"B", [0, 1], "", []⟩]

/-! ## Helper lemmas -/

theorem cons_get_set_perm (l : List α) :
    ∀ (j : Nat) (hj : j < l.length) (a : α),
      (l.get ⟨j, hj⟩ :: l.set j a).Perm (a :: l) := by
  induction l with
  | nil => intro j hj a; simp at hj
  | cons b t ih =>
    intro j hj a
    cases j with
    | zero =>
      simp only [List.get, List.set_cons_zero]
      exact List.Perm.swap a b t
    | succ m =>
      have hm : m < t.length := by simpa using hj
      simp only [List.get_cons_succ, List.set_cons_succ]
      exact ((List.Perm.swap b (t.get ⟨m, hm⟩) (t.set m a)).trans
        ((ih m hm a).cons b)).trans (List.Perm.swap a b t)

theorem set_set_swap_perm (l : List α) :
    ∀ (i j : Nat) (hi : i < l.length) (hj : j < l.length),
      ((l.set i (l.get ⟨j, hj⟩)).set j (l.get ⟨i, hi⟩)).Perm l := by
  induction l with
  | nil => intro i j hi hj; simp at hi
  | cons c t ih =>
    intro i j hi hj
    cases i with
    | zero =>
      cases j with
      | zero => simp
      | succ m =>
        have hm : m < t.length := by simpa using hj
        simp only [List.get, List.get_cons_succ, List.set_cons_zero,
          List.set_cons_succ]
        exact cons_get_set_perm t m hm c
    | succ n =>
      have hn : n < t.length := by simpa using hi
      cases j with
      | zero =>
        simp only [List.get, List.get_cons_succ, List.set_cons_zero,
          List.set_cons_succ]
        exact cons_get_set_perm t n hn c
      | succ m =>
        have hm : m < t.length := by simpa using hj
        simp only [List.get_cons_succ, List.set_cons_succ]
        exact List.Perm.cons c (ih n m hn hm)

theorem listSwap_perm (l : List α) (i j : Nat) : (listSwap l i j).Perm l := by
  unfold listSwap
  split
  · next a b hi hj =>
    obtain ⟨hi', ha⟩ := List.getElem?_eq_some.mp hi
    obtain ⟨hj', hb⟩ := List.getElem?_eq_some.mp hj
    have ha' : l.get ⟨i, hi'⟩ = a := ha
    have hb' : l.get ⟨j, hj'⟩ = b := hb
    rw [← ha', ← hb']
    exact set_set_swap_perm l i j hi' hj'
  · exact List.Perm.refl l

theorem fisherYatesAux_perm (rand : Nat → Nat) :
    ∀ (n : Nat) (l : List α), (fisherYatesAux rand l n).Perm l
  | 0, l => List.Perm.refl l
  | n + 1, l =>
    (fisherYatesAux_perm rand n _).trans
      (listSwap_perm l (n + 1) (rand (n + 1) % (n + 2)))

theorem shuffleCopy_perm (rand : Nat → Nat) (l : List α) :
    (shuffleCopy rand l).Perm l :=
  fisherYatesAux_perm rand (l.length - 1) l

theorem splitOnChar_ne_nil (sep : Char) (cs : List Char) :
    splitOnChar sep cs ≠ [] := by
  cases cs with
  | nil => simp [splitOnChar]
  | cons c rest =>
    simp only [splitOnChar]
    split_ifs
    · simp
    · cases h : splitOnChar sep rest <;> simp

theorem firstWord_eq_takeWhile (cs : List Char) :
    firstWord cs = cs.takeWhile (fun c => c ≠ ' ') := by
  induction cs with
  | nil => rfl
  | cons c rest ih =>
    simp only [firstWord, splitOnChar] at *
    split_ifs with hc
    · subst hc
      simp [List.takeWhile_cons]
    · cases h : splitOnChar ' ' rest with
      | nil => exact absurd h (splitOnChar_ne_nil ' ' rest)
      | cons s ss =>
        rw [h] at ih
        simp only [List.headD] at ih
        simp only [ne_eq, decide_not] at ih
        simp [List.takeWhile_cons, hc, ← ih]

theorem length_mk_char_list (cs : List Char) :
    (String.mk cs).length = cs.length := rfl

theorem enum_map_snd_comp {β : Type _} (f : α → β) (l : List α) :
    l.enum.map (fun p => f p.2) = l.map f := by
  rw [show (fun p : Nat × α => f p.2) = f ∘ Prod.snd from rfl,
    ← List.map_map, List.enum_map_snd]

theorem filter_snd_enum_map {β : Type _} (pred : α → Bool) (f : α → β)
    (l : List α) :
    (l.enum.filter (fun p => pred p.2)).map (fun p => f p.2) =
      (l.filter pred).map f := by
  rw [show (fun p : Nat × α => f p.2) = f ∘ Prod.snd from rfl,
    show (fun p : Nat × α => pred p.2) = pred ∘ Prod.snd from rfl,
    ← List.map_map]
  congr 1
  rw [← List.filter_map, List.enum_map_snd]

theorem length_filter_snd_enum (pred : α → Bool) (l : List α) :
    (l.enum.filter (fun p => pred p.2)).length = (l.filter pred).length := by
  have h := congrArg List.length (filter_snd_enum_map pred (fun a => a) l)
  simpa using h

theorem filter_ne_length_string (l : List String) (c : String)
    (hnd : l.Nodup) (hm : c ∈ l) :
    (l.filter (fun s => s ≠ c)).length = l.length - 1 := by
  have hbe : (fun s : String => decide (s ≠ c)) =
      (fun s : String => s != c) := by
    funext s
    simp [bne, Bool.beq_eq_decide_eq]
  show (l.filter (fun s => decide (s ≠ c))).length = l.length - 1
  rw [hbe, ← List.Nodup.erase_eq_filter hnd c]
  exact List.length_erase_of_mem hm

theorem filter_code_ne_length (store : List StyleEntry) (c : String)
    (hnd : (store.map StyleEntry.code).Nodup)
    (hmem : c ∈ store.map StyleEntry.code) :
    (store.filter (fun e => e.code ≠ c)).length = store.length - 1 := by
  have h2 : (store.map StyleEntry.code).filter (fun s => s ≠ c) =
      (store.filter (fun e => e.code ≠ c)).map StyleEntry.code := by
    rw [List.filter_map]
    rfl
  have h3 := congrArg List.length h2
  rw [List.length_map, filter_ne_length_string _ c hnd hmem] at h3
  rw [← h3, List.length_map]

theorem mem_rank_exclude (q : List ℝ) (store : List StyleEntry) (c : String)
    (p : String × ℝ) (hp : p ∈ rank q store (some c)) : p.1 ≠ c := by
  unfold rank rankScored at hp
  simp only [List.mem_map] at hp
  obtain ⟨se, hse, rfl⟩ := hp
  rw [List.mem_insertionSort] at hse
  simp only [List.mem_map] at hse
  obtain ⟨pr, hpr, rfl⟩ := hse
  have h2 := (List.mem_filter.mp hpr).2
  simpa using h2

theorem rank_perm_none (q : List ℝ) (store : List StyleEntry) :
    (rank q store none).Perm
      (store.map (fun e => (e.code, cosineSim q e.embedding))) := by
  unfold rank rankScored
  have hperm :=
    (List.perm_insertionSort rankRel
      (store.enum.map
        (fun p => (⟨p.1, p.2.code, cosineSim q p.2.embedding⟩ : ScoredEntry)))).map
      (fun e : ScoredEntry => (e.code, e.score))
  refine hperm.trans ?_
  rw [List.map_map]
  show List.Perm
    (store.enum.map (fun p => (p.2.code, cosineSim q p.2.embedding)))
    (store.map (fun e => (e.code, cosineSim q e.embedding)))
  rw [enum_map_snd_comp (fun e => (e.code, cosineSim q e.embedding)) store]

theorem rank_perm_some (q : List ℝ) (store : List StyleEntry) (c : String) :
    (rank q store (some c)).Perm
      ((store.filter (fun e => e.code ≠ c)).map
        (fun e => (e.code, cosineSim q e.embedding))) := by
  unfold rank rankScored
  have hperm :=
    (List.perm_insertionSort rankRel
      ((store.enum.filter (fun p => p.2.code ≠ c)).map
        (fun p => (⟨p.1, p.2.code, cosineSim q p.2.embedding⟩ : ScoredEntry)))).map
      (fun e : ScoredEntry => (e.code, e.score))
  refine hperm.trans ?_
  rw [List.map_map]
  rw [show ((fun e : ScoredEntry => (e.code, e.score)) ∘
      (fun p : Nat × StyleEntry =>
        (⟨p.1, p.2.code, cosineSim q p.2.embedding⟩ : ScoredEntry))) =
    (fun p : Nat × StyleEntry =>
      (p.2.code, cosineSim q p.2.embedding)) from rfl]
  rw [filter_snd_enum_map (fun e => e.code ≠ c)
    (fun e => (e.code, cosineSim q e.embedding)) store]

/-! ## Theorems -/

/-- C5: the default page size is 9; page p shows exactly the results at
positions (p-1)*9 .. p*9-1 of the full list (fewer on the last page), and
the total page count is the ceiling of the result count divided by 9
(stated as: count ≤ 9 * totalPages < count + 9). -/
theorem pageSize_is_nine_and_pages_are_consecutive_slices
    (l : List α) (p i : Nat) :
    resultsPerPage = 9 ∧
    (pageSlice l p)[i]? = (if i < 9 then l[(p - 1) * 9 + i]? else none) ∧
    (pageSlice l p).length = min 9 (l.length - (p - 1) * 9) ∧
    l.length ≤ 9 * totalPages l ∧ 9 * totalPages l < l.length + 9 := by
  refine ⟨rfl, ?_, ?_, ?_, ?_⟩
  · simp only [pageSlice, resultsPerPage]
    rw [Nat.add_sub_cancel_left, List.getElem?_take, List.getElem?_drop]
  · simp only [pageSlice, resultsPerPage, Nat.add_sub_cancel_left,
      List.length_take, List.length_drop]
  · simp only [totalPages, resultsPerPage]
    omega
  · simp only [totalPages, resultsPerPage]
    omega

/-- C10: in every reachable pager state the page counter is at least 1 and,
when the result list is non-empty, at most ceil(resultCount / 9);
previousPage decrements exactly when currentPage > 1, nextPage increments
exactly when currentPage < totalPages, every completed search resets
currentPage to 1, and the pagination controls are hidden whenever
totalPages ≤ 1. -/
theorem pager_invariant_and_controls (s : PagerState α) (h : Reachable s) :
    (1 ≤ s.currentPage ∧
      (s.allResults ≠ [] → s.currentPage ≤ totalPages s.allResults)) ∧
    (s.currentPage ≤ 1 → previousPage s = s) ∧
    (1 < s.currentPage → (previousPage s).currentPage = s.currentPage - 1) ∧
    (totalPages s.allResults ≤ s.currentPage → nextPage s = s) ∧
    (s.currentPage < totalPages s.allResults →
      (nextPage s).currentPage = s.currentPage + 1) ∧
    (∀ results : List α, (searchSuccess results s).currentPage = 1) ∧
    (totalPages s.allResults ≤ 1 → paginationHidden s = true) := by
  have hinv : 1 ≤ s.currentPage ∧
      (s.allResults ≠ [] → s.currentPage ≤ totalPages s.allResults) := by
    induction h with
    | init => exact ⟨le_refl 1, fun h => absurd rfl h⟩
    | search results _ _ =>
      refine ⟨le_refl 1, fun hne => ?_⟩
      have hlen : results.length ≠ 0 := by
        simpa [searchSuccess, List.length_eq_zero] using hne
      simp only [searchSuccess, totalPages, resultsPerPage]
      omega
    | prev _ ih =>
      rcases ih with ⟨h1, h2⟩
      unfold previousPage
      split
      · exact ⟨by simp; omega, fun hne => by
          simp only at hne ⊢
          exact le_trans (by simp) (h2 hne)⟩
      · exact ⟨h1, h2⟩
    | next _ ih =>
      rcases ih with ⟨h1, h2⟩
      unfold nextPage
      split
      · next hlt => exact ⟨by simp, fun _ => by simp only; omega⟩
      · exact ⟨h1, h2⟩
  refine ⟨hinv, ?_, ?_, ?_, ?_, fun _ => rfl, ?_⟩
  · intro hle
    unfold previousPage
    split
    · omega
    · rfl
  · intro hlt
    unfold previousPage
    split
    · simp
    · omega
  · intro hle
    unfold nextPage
    split
    · omega
    · rfl
  · intro hlt
    unfold nextPage
    split
    · simp
    · omega
  · intro hle
    simpa [paginationHidden] using hle

/-- C4 (counterexample): a whitespace-only query text passed as the explicit
argument of performSearch (the path taken by tag clicks) is truthy in
JavaScript, so the blank-query guard does not fire: the operation issues a
search request instead of failing with the client-visible error. -/
theorem performSearch_whitespace_argument_not_rejected :
    (∀ c ∈ (" " : String).toList, c.isWhitespace) ∧
    performSearchAction (some " ") "" = SearchAction.request " " := by
  decide

/-- C4 (amended): on the typed-input path (no explicit query argument, or an
empty one), a search whose trimmed input is empty shows "Please enter a
search term", issues no request and leaves the pager state untouched, while
a non-blank trimmed input issues the request; a failed request also leaves
the state untouched and a successful one installs the results. -/
theorem performSearch_blank_typed_query_rejected (query : Option String)
    (inputValue : String) (s : PagerState α) (response : Option (List α))
    (hq : query = none ∨ query = some "") :
    (inputValue.trim = "" →
      performSearchAction query inputValue =
        SearchAction.showErrorOnly "Please enter a search term" ∧
      performSearchState query inputValue s response = s) ∧
    (inputValue.trim ≠ "" →
      performSearchAction query inputValue =
        SearchAction.request inputValue.trim ∧
      (response = none → performSearchState query inputValue s response = s) ∧
      (∀ results, response = some results →
        performSearchState query inputValue s response =
          searchSuccess results s)) := by
  have hquery : performSearchQuery query inputValue = inputValue.trim := by
    rcases hq with h | h <;> subst h <;> simp [performSearchQuery]
  constructor
  · intro hblank
    have ha : performSearchAction query inputValue =
        SearchAction.showErrorOnly "Please enter a search term" := by
      simp [performSearchAction, hquery, hblank]
    exact ⟨ha, by simp [performSearchState, ha]⟩
  · intro hnonblank
    have ha : performSearchAction query inputValue =
        SearchAction.request inputValue.trim := by
      simp [performSearchAction, hquery, hnonblank]
    refine ⟨ha, fun hr => ?_, fun results hr => ?_⟩
    · simp [performSearchState, ha, hr]
    · simp [performSearchState, ha, hr]

/-- Witness for the amended C4: blank typed input is rejected and a
non-blank one is requested, at concrete inputs. -/
theorem performSearch_blank_typed_query_rejected_witness :
    (("  " : String).trim = "" →
      performSearchAction none "  " =
        SearchAction.showErrorOnly "Please enter a search term" ∧
      performSearchState none "  " (initState : PagerState Nat) none =
        initState) ∧
    (("  " : String).trim ≠ "" →
      performSearchAction none "  " =
        SearchAction.request ("  " : String).trim ∧
      (none = (none : Option (List Nat)) →
        performSearchState none "  " (initState : PagerState Nat) none =
          initState) ∧
      (∀ results, (none : Option (List Nat)) = some results →
        performSearchState none "  " (initState : PagerState Nat) none =
          searchSuccess results initState)) :=
  performSearch_blank_typed_query_rejected none "  " initState none
    (Or.inl rfl)

/-- C6 (counterexample): an OK tag response carrying an empty tag list is
accepted verbatim, so after loading completes the available tags are empty;
the fallback (which is non-empty) is not applied on this outcome. -/
theorem loadTags_ok_empty_list_yields_empty_tags :
    loadTags (TagsFetch.response true (some []) none) = [] ∧
    fallbackTags ≠ [] := by
  decide

/-- C6 (amended): tag loading is total and never blocks page load: every
failure outcome (network error, malformed body, non-OK status, missing tags
field) yields the fixed 15-entry built-in fallback list, and a successful
response yields the server list verbatim; consequently the available tags
are non-empty on every outcome except an OK response carrying an empty
list. -/
theorem loadTags_total_with_fallback :
    loadTags TagsFetch.fetchFailed = fallbackTags ∧
    (∀ t e, loadTags (TagsFetch.response false t e) = fallbackTags) ∧
    (∀ e, loadTags (TagsFetch.response true none e) = fallbackTags) ∧
    (∀ ts e, loadTags (TagsFetch.response true (some ts) e) = ts) ∧
    fallbackTags.length = 15 ∧
    (∀ r, (∀ e, r ≠ TagsFetch.response true (some []) e) →
      loadTags r ≠ []) := by
  refine ⟨rfl, fun t e => rfl, fun e => rfl, fun ts e => rfl, rfl, ?_⟩
  intro r hr
  cases r with
  | fetchFailed => decide
  | response ok tags e =>
    cases ok with
    | false => simp only [loadTags, Bool.false_eq_true, if_false]; decide
    | true =>
      cases tags with
      | none => simp only [loadTags, if_true]; decide
      | some ts =>
        simp only [loadTags, if_true]
        intro hts
        subst hts
        exact hr e rfl

/-- Witness for the amended C6: a failed fetch yields a non-empty tag
list. -/
theorem loadTags_total_with_fallback_witness :
    loadTags TagsFetch.fetchFailed ≠ [] :=
  loadTags_total_with_fallback.2.2.2.2.2 TagsFetch.fetchFailed
    (fun _ h => TagsFetch.noConfusion h)

/-- C9: extractTags returns at most 5 tags, each strictly longer than 2
characters; each tag is the first space-delimited word of the trimmed
comma-separated segment it came from; and with no "Key themes: " match the
fixed default list ["visual", "style"] is returned. -/
theorem extractTags_shape (s : String) :
    (extractTags s).length ≤ 5 ∧
    (∀ t ∈ extractTags s, 2 < t.length) ∧
    (findCapture s.toList = none → extractTags s = ["visual", "style"]) ∧
    (∀ cap, findCapture s.toList = some cap →
      ∀ t ∈ extractTags s, ∃ seg ∈ splitOnChar ',' cap,
        t = String.mk ((trimChars seg).takeWhile (fun c => c ≠ ' '))) := by
  have hnone : findCapture s.data = none → extractTags s = ["visual", "style"] := by
    intro h
    simp only [extractTags, extractTagsCore, String.toList, h]
    rfl
  have hsome : ∀ cap, findCapture s.data = some cap → extractTags s =
      List.map String.mk
        ((((splitOnChar ',' cap).map (fun t => firstWord (trimChars t))).filter
          (fun t => 2 < t.length)).take 5) := by
    intro cap h
    simp only [extractTags, extractTagsCore, String.toList, h]
  refine ⟨?_, ?_, ?_, ?_⟩
  · cases h : findCapture s.data with
    | none => rw [hnone h]; decide
    | some cap =>
      rw [hsome cap h, List.length_map]
      exact List.length_take_le 5 _
  · intro t ht
    cases h : findCapture s.data with
    | none =>
      rw [hnone h] at ht
      simp only [List.mem_cons, List.not_mem_nil, or_false] at ht
      rcases ht with rfl | rfl <;> decide
    | some cap =>
      rw [hsome cap h] at ht
      simp only [List.mem_map] at ht
      obtain ⟨tc, htc, rfl⟩ := ht
      have h1 := List.mem_of_mem_take htc
      have h2 := (List.mem_filter.mp h1).2
      rw [length_mk_char_list]
      exact of_decide_eq_true h2
  · intro h
    exact hnone h
  · intro cap h t ht
    rw [hsome cap h] at ht
    simp only [List.mem_map] at ht
    obtain ⟨tc, htc, rfl⟩ := ht
    have h1 := List.mem_of_mem_take htc
    have h2 := (List.mem_filter.mp h1).1
    simp only [List.mem_map] at h2
    obtain ⟨seg, hseg, rfl⟩ := h2
    exact ⟨seg, hseg, by rw [firstWord_eq_takeWhile]⟩

/-- Witness for C9: a summary without the label yields the default tags. -/
theorem extractTags_shape_witness :
    findCapture ("no label here" : String).toList = none ∧
    extractTags "no label here" = ["visual", "style"] :=
  ⟨by decide, (extractTags_shape "no label here").2.2.1 (by decide)⟩

/-- C7 (counterexample): on a summary in the documented delimiter format
the tag extraction is not a plain split on the delimiter: frequency counts
are cut off, terms of length ≤ 2 are dropped, and only the first 5
survivors are kept, so the extracted tags differ from the comma-separated
terms that follow the label. -/
theorem extractTags_differs_from_plain_split :
    keyThemesPlainSplit
        "Key themes: painting 12, ab, one, two, three, four, five" =
      some ["painting 12", " ab", " one", " two", " three", " four",
        " five"] ∧
    extractTags "Key themes: painting 12, ab, one, two, three, four, five" =
      ["painting", "one", "two", "three", "four"] ∧
    (["painting", "one", "two", "three", "four"] : List String) ≠
      ["painting 12", " ab", " one", " two", " three", " four", " five"] := by
  exact ⟨by decide, by decide, by decide⟩

/-- C7 (amended): for every summary matching the delimiter format, the tag
extraction starts from the plain comma-split of the captured text but then,
for each segment, keeps only the trimmed segment's leading run of non-space
characters, drops results of length ≤ 2, and truncates to the first 5. -/
theorem extractTags_refines_plain_split (s : String) (cap : List Char)
    (h : findCapture s.toList = some cap) :
    keyThemesPlainSplit s = some ((splitOnChar ',' cap).map String.mk) ∧
    extractTags s =
      ((((splitOnChar ',' cap).map
          (fun seg =>
            String.mk ((trimChars seg).takeWhile (fun c => c ≠ ' ')))).filter
        (fun t => 2 < t.length)).take 5) := by
  have hf : (fun t => firstWord (trimChars t)) =
      (fun t => (trimChars t).takeWhile (fun c => c ≠ ' ')) :=
    funext fun t => firstWord_eq_takeWhile _
  have h' : findCapture s.data = some cap := h
  constructor
  · simp [keyThemesPlainSplit, String.toList, h']
  · simp only [extractTags, extractTagsCore, String.toList, h']
    rw [List.map_take]
    congr 1
    rw [hf, List.filter_map, List.filter_map, List.map_map]
    rfl

/-- Witness for the amended C7 at a concrete summary. -/
theorem extractTags_refines_plain_split_witness :
    keyThemesPlainSplit "Key themes: abc" =
      some ((splitOnChar ',' ("abc" : String).toList).map String.mk) ∧
    extractTags "Key themes: abc" =
      ((((splitOnChar ',' ("abc" : String).toList).map
          (fun seg =>
            String.mk ((trimChars seg).takeWhile (fun c => c ≠ ' ')))).filter
        (fun t => 2 < t.length)).take 5) :=
  extractTags_refines_plain_split "Key themes: abc" ("abc" : String).toList
    (by decide)

/-- C8: sampling n tags from the catalog (the first n entries of the
Fisher-Yates shuffled copy; shuffleExamples is the n = 6 instance) draws
without replacement: the sample never contains duplicates when the catalog
entries are distinct, every sampled term belongs to the catalog, and when
n is at least the catalog size the sample is the whole catalog (as a
permutation), with no error. -/
theorem sampleTags_without_replacement (tags : List String)
    (rand : Nat → Nat) (n : Nat) (displayed : List String) :
    (tags.Nodup → (sampleTags tags rand n).Nodup) ∧
    (∀ t ∈ sampleTags tags rand n, t ∈ tags) ∧
    (tags.length ≤ n → (sampleTags tags rand n).Perm tags) ∧
    (tags ≠ [] → shuffleExamples tags displayed rand = sampleTags tags rand 6) := by
  have hperm := shuffleCopy_perm rand tags
  refine ⟨?_, ?_, ?_, ?_⟩
  · intro hnd
    exact List.Nodup.sublist (List.take_sublist n _) (hperm.nodup_iff.mpr hnd)
  · intro t ht
    exact hperm.subset (List.mem_of_mem_take ht)
  · intro hle
    have hlen : (shuffleCopy rand tags).length = tags.length := hperm.length_eq
    rw [sampleTags, List.take_of_length_le (by omega)]
    exact hperm
  · intro hne
    rw [shuffleExamples, if_neg (by simpa [List.length_eq_zero] using hne)]
    rfl

/-- Witness for C8 at a concrete two-entry catalog, an oversized n and a
fixed draw function. -/
theorem sampleTags_without_replacement_witness :
    (sampleTags ["art", "dark"] (fun _ => 0) 6).Nodup ∧
    (sampleTags ["art", "dark"] (fun _ => 0) 6).Perm ["art", "dark"] ∧
    shuffleExamples ["art", "dark"] [] (fun _ => 0) =
      sampleTags ["art", "dark"] (fun _ => 0) 6 :=
  ⟨(sampleTags_without_replacement ["art", "dark"] (fun _ => 0) 6 []).1
      (by decide),
    (sampleTags_without_replacement ["art", "dark"] (fun _ => 0) 6 []).2.2.1
      (by decide),
    (sampleTags_without_replacement ["art", "dark"] (fun _ => 0) 6 []).2.2.2
      (by decide)⟩

/-- C1: rank returns every store entry exactly once as a (code, score)
pair — a permutation of the scored store, with length equal to the store
size, and, when excluding a code present in a duplicate-free store, length
equal to the store size minus one; the scored output is sorted by the total
order rankRel (strictly descending score, ties in original store order, so
the sort is stable), hence pairwise descending in score. rank is a pure
function, so identical inputs give the identical ordering. -/
theorem rank_stable_descending_complete (q : List ℝ)
    (store : List StyleEntry) :
    (rank q store none).length = store.length ∧
    (rank q store none).Perm
      (store.map (fun e => (e.code, cosineSim q e.embedding))) ∧
    (∀ c, (rank q store (some c)).Perm
      ((store.filter (fun e => e.code ≠ c)).map
        (fun e => (e.code, cosineSim q e.embedding)))) ∧
    (∀ exclude, (rankScored q store exclude).Sorted rankRel) ∧
    (∀ exclude, (rank q store exclude).Pairwise (fun a b => b.2 ≤ a.2)) ∧
    (∀ c, (store.map StyleEntry.code).Nodup →
      c ∈ store.map StyleEntry.code →
      (rank q store (some c)).length = store.length - 1) := by
  refine ⟨?_, rank_perm_none q store, fun c => rank_perm_some q store c,
    ?_, ?_, ?_⟩
  · have hl := (rank_perm_none q store).length_eq
    rw [hl, List.length_map]
  · intro exclude
    exact List.sorted_insertionSort rankRel _
  · intro exclude
    have hs : (rankScored q store exclude).Pairwise rankRel :=
      List.sorted_insertionSort rankRel _
    exact hs.map _ (fun a b hr => by
      rcases hr with hlt | ⟨he, _⟩
      · exact le_of_lt hlt
      · exact le_of_eq he.symm)
  · intro c hnd hmem
    have hl := (rank_perm_some q store c).length_eq
    rw [hl, List.length_map, filter_code_ne_length store c hnd hmem]

/-- Witness for C1: excluding code A from the two-entry demo store yields
one ranked pair. -/
theorem rank_stable_descending_complete_witness :
    (demoStore.map StyleEntry.code).Nodup ∧
    "A" ∈ demoStore.map StyleEntry.code ∧
    (rank [(1 : ℝ), 0] demoStore (some "A")).length = demoStore.length - 1 :=
  ⟨by decide, by decide,
    (rank_stable_descending_complete [(1 : ℝ), 0] demoStore).2.2.2.2.2 "A"
      (by decide) (by decide)⟩

/-- C2: the similarity scoring is total: a pair involving a zero-magnitude
vector scores exactly zero (no error is possible: cosineSim is a total
function), every other pair scores the cosine similarity — the dot product
divided by the product of the magnitudes; and zero vectors (hence
zero-magnitude vectors) exist in every dimension. -/
theorem cosineSim_zero_magnitude_policy (u v : List ℝ) :
    (magnitude u = 0 ∨ magnitude v = 0 → cosineSim u v = 0) ∧
    (magnitude u ≠ 0 → magnitude v ≠ 0 →
      cosineSim u v = dotProduct u v / (magnitude u * magnitude v)) ∧
    magnitude (List.replicate u.length (0 : ℝ)) = 0 := by
  refine ⟨?_, ?_, ?_⟩
  · intro h
    unfold cosineSim
    split_ifs
    rfl
  · intro h1 h2
    unfold cosineSim
    split_ifs with hc
    · rcases hc with hc | hc
      · exact absurd hc h1
      · exact absurd hc h2
    · rfl
  · simp [magnitude, List.sum_replicate]

/-- Witness for C2: the zero vector scores zero against a unit vector. -/
theorem cosineSim_zero_magnitude_policy_witness :
    magnitude [(0 : ℝ)] = 0 ∧ cosineSim [(0 : ℝ)] [(1 : ℝ)] = 0 := by
  have h : magnitude [(0 : ℝ)] = 0 := by simp [magnitude]
  exact ⟨h, (cosineSim_zero_magnitude_policy [(0 : ℝ)] [(1 : ℝ)]).1
    (Or.inl h)⟩

/-- C3: for every reference code present in the store, search_by_code
succeeds and its ranked result list never contains the reference code —
neither in the full list (the exclusion is applied inside rank, before any
pagination or truncation) nor, a fortiori, in any displayed page slice. -/
theorem searchByCode_excludes_reference (x : String)
    (store : List StyleEntry) (h : x ∈ store.map StyleEntry.code) :
    ∃ l, searchByCode x store = some l ∧
      (∀ p ∈ l, p.1 ≠ x) ∧
      (∀ pg, ∀ p ∈ pageSlice l pg, p.1 ≠ x) := by
  obtain ⟨e, he, hcode⟩ := List.mem_map.mp h
  have hsome : (store.find? (fun e => e.code = x)).isSome := by
    rw [List.find?_isSome]
    exact ⟨e, he, by simp [hcode]⟩
  obtain ⟨e', hfind⟩ := Option.isSome_iff_exists.mp hsome
  refine ⟨rank e'.embedding store (some x), ?_, ?_, ?_⟩
  · unfold searchByCode
    rw [hfind]
  · intro p hp
    exact mem_rank_exclude e'.embedding store x p hp
  · intro pg p hp
    have hmem : p ∈ rank e'.embedding store (some x) := by
      unfold pageSlice at hp
      exact List.mem_of_mem_drop (List.mem_of_mem_take hp)
    exact mem_rank_exclude e'.embedding store x p hmem

/-- Witness for C3: find-similar on code A of the demo store excludes A. -/
theorem searchByCode_excludes_reference_witness :
    "A" ∈ demoStore.map StyleEntry.code ∧
    ∃ l, searchByCode "A" demoStore = some l ∧
      (∀ p ∈ l, p.1 ≠ "A") ∧
      (∀ pg, ∀ p ∈ pageSlice l pg, p.1 ≠ "A") :=
  ⟨by decide, searchByCode_excludes_reference "A" demoStore (by decide)⟩

/-- Witness for C10 at the initial state. -/
theorem pager_invariant_and_controls_witness :
    (1 ≤ (initState : PagerState Nat).currentPage ∧
      ((initState : PagerState Nat).allResults ≠ [] →
        (initState : PagerState Nat).currentPage ≤
          totalPages (initState : PagerState Nat).allResults)) ∧
    ((initState : PagerState Nat).currentPage ≤ 1 →
      previousPage (initState : PagerState Nat) = initState) ∧
    (1 < (initState : PagerState Nat).currentPage →
      (previousPage (initState : PagerState Nat)).currentPage =
        (initState : PagerState Nat).currentPage - 1) ∧
    (totalPages (initState : PagerState Nat).allResults ≤
        (initState : PagerState Nat).currentPage →
      nextPage (initState : PagerState Nat) = initState) ∧
    ((initState : PagerState Nat).currentPage <
        totalPages (initState : PagerState Nat).allResults →
      (nextPage (initState : PagerState Nat)).currentPage =
        (initState : PagerState Nat).currentPage + 1) ∧
    (∀ results : List Nat,
      (searchSuccess results (initState : PagerState Nat)).currentPage = 1) ∧
    (totalPages (initState : PagerState Nat).allResults ≤ 1 →
      paginationHidden (initState : PagerState Nat) = true) :=
  pager_invariant_and_controls initState Reachable.init

end SrefLib
